import Mathlib

/-!
Verification of the `thred-js` client library (`src/client.ts`, `src/errors.ts`,
`src/types.ts`) against its natural-language specification.

The development shallowly embeds the code:

* JavaScript string operations used by the stream splitter
  (`indexOf`, `substring`, `split`, `join`, `trim`, `+`) are modelled over
  Lean `String` / `List Char` (the streamed payloads in the claims are ASCII,
  so UTF-16 code-unit indexing coincides with character indexing).
* `JSON.parse` is modelled by a fuel-based recursive-descent parser
  (`jsonParse`) that accepts exactly the JSON grammar (value with complete
  consumption of the input, modulo surrounding whitespace).
* The stream-splitting loops of `answerStream` (callback delivery) and
  `answerStreamGenerator` (lazy-sequence delivery) are embedded as pure
  state-passing functions over the list of decoded chunks
  (`processChunk` / `runLoop` / `finishBuffer`, and their `Gen` twins).
  Each chunk of the list is the string produced by `decoder.decode(value)`
  for one `reader.read()` result.
* Request validation and error classification (`handleApiError`,
  `fetchWithTimeout`'s catch clause) are embedded as total functions.
-/

namespace ThredJs

/-! ## JavaScript string primitives -/

/-- First index (in characters) at which `pat` occurs in `l`, if any.
Models `String.prototype.indexOf` (which returns `-1` for no occurrence;
here `none`). -/
def firstOccurAux (pat : List Char) : List Char → Option Nat
  | [] => if List.isPrefixOf pat [] then some 0 else none
  | c :: cs =>
    if List.isPrefixOf pat (c :: cs) then some 0
    else (firstOccurAux pat cs).map Nat.succ

/-- Model of `s.indexOf(pat)`: `some i` for the first occurrence, `none` for `-1`. -/
def jsIndexOf (s pat : String) : Option Nat :=
  firstOccurAux pat.data s.data

/-- Model of `s.substring(0, n)`. -/
def jsSubstringTo (s : String) (n : Nat) : String :=
  ⟨s.data.take n⟩

/-- Model of `s.substring(n)`. -/
def jsSubstringFrom (s : String) (n : Nat) : String :=
  ⟨s.data.drop n⟩

/-- Fuelled worker for `jsSplit`: repeatedly cut at the first occurrence of
the (non-empty) separator. -/
def jsSplitGo (sep : List Char) : Nat → List Char → List (List Char)
  | 0, cs => [cs]
  | Nat.succ n, cs =>
    match firstOccurAux sep cs with
    | none => [cs]
    | some i => cs.take i :: jsSplitGo sep n (cs.drop (i + sep.length))

/-- Model of `s.split(sep)` for a non-empty string separator. -/
def jsSplit (s sep : String) : List String :=
  (jsSplitGo sep.data (s.data.length + 1) s.data).map fun l => ⟨l⟩

/-- ECMAScript `WhiteSpace` / `LineTerminator` code points recognised by
`String.prototype.trim`. -/
def jsWhitespaceChar (c : Char) : Bool :=
  c = ' ' || c = '\t' || c = '\n' || c = '\r' ||
  c = '\x0b' || c = '\x0c' ||
  c.toNat = 0xa0 || c.toNat = 0x1680 ||
  (0x2000 <= c.toNat && c.toNat <= 0x200a) ||
  c.toNat = 0x2028 || c.toNat = 0x2029 || c.toNat = 0x202f ||
  c.toNat = 0x205f || c.toNat = 0x3000 || c.toNat = 0xfeff

/-- Model of `s.trim()`. -/
def jsTrim (s : String) : String :=
  ⟨((s.data.dropWhile jsWhitespaceChar).reverse.dropWhile jsWhitespaceChar).reverse⟩

/-! ## Model of `JSON.parse` -/

/-- JSON values. Number literals are kept as their source text (the claims
never inspect numeric values). -/
inductive Json where
  | null
  | bool (b : Bool)
  | num (lit : String)
  | str (s : String)
  | arr (items : List Json)
  | obj (members : List (String × Json))
deriving Repr

/-- JSON insignificant whitespace. -/
def jsonWsChar (c : Char) : Bool :=
  c = ' ' || c = '\t' || c = '\n' || c = '\r'

/-- Drop leading JSON whitespace. -/
def skipWs (cs : List Char) : List Char :=
  cs.dropWhile jsonWsChar

/-- Decimal digit test. -/
def isDigitChar (c : Char) : Bool :=
  '0' ≤ c && c ≤ '9'

/-- Numeric value of a hexadecimal digit, using raw code points
(48-57 for `0`-`9`, 97-102 for `a`-`f`, 65-70 for `A`-`F`). -/
def hexVal (c : Char) : Option Nat :=
  let n := c.toNat
  if 48 ≤ n && n ≤ 57 then some (n - 48)
  else if 97 ≤ n && n ≤ 102 then some (n - 87)
  else if 65 ≤ n && n ≤ 70 then some (n - 55)
  else none

/-- Parse the body of a JSON string literal (the opening quote already
consumed); returns the decoded characters and the remainder after the
closing quote. -/
def parseStringBody : Nat → List Char → Option (List Char × List Char)
  | 0, _ => none
  | _ + 1, [] => none
  | n + 1, c :: rest =>
    if c = '"' then some ([], rest)
    else if c = '\\' then
      match rest with
      | [] => none
      | e :: rest' =>
        let cont (d : Char) (r : List Char) : Option (List Char × List Char) :=
          (parseStringBody n r).map fun p => (d :: p.1, p.2)
        if e = '"' then cont '"' rest'
        else if e = '\\' then cont '\\' rest'
        else if e = '/' then cont '/' rest'
        else if e = 'b' then cont '\x08' rest'
        else if e = 'f' then cont '\x0c' rest'
        else if e = 'n' then cont '\n' rest'
        else if e = 'r' then cont '\r' rest'
        else if e = 't' then cont '\t' rest'
        else if e = 'u' then
          match rest' with
          | h1 :: h2 :: h3 :: h4 :: rest'' =>
            match hexVal h1, hexVal h2, hexVal h3, hexVal h4 with
            | some a, some b, some c', some d =>
              cont (Char.ofNat (((a * 16 + b) * 16 + c') * 16 + d)) rest''
            | _, _, _, _ => none
          | _ => none
        else none
    else if c.toNat < 0x20 then none
    else (parseStringBody n rest).map fun p => (c :: p.1, p.2)

/-- Parse the integer part of a JSON number after an optional sign:
either a single `0` or a nonzero digit followed by digits. -/
def parseIntPart (cs : List Char) : Option (List Char × List Char) :=
  match cs with
  | [] => none
  | c :: rest =>
    if c = '0' then some (['0'], rest)
    else if '1' ≤ c && c ≤ '9' then
      let (ds, rest') := rest.span isDigitChar
      some (c :: ds, rest')
    else none

/-- Parse the optional fraction part of a JSON number. -/
def parseFracPart (cs : List Char) : Option (List Char × List Char) :=
  match cs with
  | '.' :: rest =>
    let (ds, rest') := rest.span isDigitChar
    if ds.isEmpty then none else some ('.' :: ds, rest')
  | _ => some ([], cs)

/-- Parse the optional exponent part of a JSON number. -/
def parseExpPart (cs : List Char) : Option (List Char × List Char) :=
  match cs with
  | e :: rest =>
    if e = 'e' || e = 'E' then
      let (sgn, rest') :=
        match rest with
        | s :: r => if s = '+' || s = '-' then ([s], r) else (([] : List Char), rest)
        | [] => ([], rest)
      let (ds, rest'') := rest'.span isDigitChar
      if ds.isEmpty then none else some (e :: sgn ++ ds, rest'')
    else some ([], cs)
  | [] => some ([], cs)

/-- Parse a JSON number literal, returning its source text. -/
def parseNumberLit (cs : List Char) : Option (List Char × List Char) :=
  let (sgn, cs1) :=
    match cs with
    | '-' :: r => (['-'], r)
    | _ => (([] : List Char), cs)
  match parseIntPart cs1 with
  | none => none
  | some (ip, cs2) =>
    match parseFracPart cs2 with
    | none => none
    | some (fp, cs3) =>
      match parseExpPart cs3 with
      | none => none
      | some (ep, cs4) => some (sgn ++ ip ++ fp ++ ep, cs4)

/-- Check that the characters of `pat` literally lead `cs` and return the
remainder. -/
def expectLit (pat : List Char) (cs : List Char) : Option (List Char) :=
  if List.isPrefixOf pat cs then some (cs.drop pat.length) else none

mutual

/-- Fuelled recursive-descent parser for a single JSON value (leading
whitespace allowed); models the grammar accepted by `JSON.parse`. -/
def parseValue : Nat → List Char → Option (Json × List Char)
  | 0, _ => none
  | n + 1, cs =>
    match skipWs cs with
    | [] => none
    | c :: rest =>
      if c = 'n' then (expectLit ['u', 'l', 'l'] rest).map fun r => (Json.null, r)
      else if c = 't' then (expectLit ['r', 'u', 'e'] rest).map fun r => (Json.bool true, r)
      else if c = 'f' then (expectLit ['a', 'l', 's', 'e'] rest).map fun r => (Json.bool false, r)
      else if c = '"' then
        (parseStringBody (rest.length + 1) rest).map fun p => (Json.str ⟨p.1⟩, p.2)
      else if c = '{' then
        match skipWs rest with
        | '}' :: r => some (Json.obj [], r)
        | r => (parseMembers n r).map fun p => (Json.obj p.1, p.2)
      else if c = '[' then
        match skipWs rest with
        | ']' :: r => some (Json.arr [], r)
        | r => (parseElements n r).map fun p => (Json.arr p.1, p.2)
      else
        (parseNumberLit (c :: rest)).map fun p => (Json.num ⟨p.1⟩, p.2)

/-- Fuelled parser for the members of a JSON object (after `{`, first
member expected); consumes the closing `}`. -/
def parseMembers : Nat → List Char → Option (List (String × Json) × List Char)
  | 0, _ => none
  | n + 1, cs =>
    match skipWs cs with
    | '"' :: rest =>
      match parseStringBody (rest.length + 1) rest with
      | none => none
      | some (key, afterKey) =>
        match skipWs afterKey with
        | ':' :: afterColon =>
          match parseValue n afterColon with
          | none => none
          | some (v, afterVal) =>
            match skipWs afterVal with
            | ',' :: afterComma =>
              (parseMembers n afterComma).map fun p => ((⟨key⟩, v) :: p.1, p.2)
            | '}' :: afterBrace => some ([(⟨key⟩, v)], afterBrace)
            | _ => none
        | _ => none
    | _ => none

/-- Fuelled parser for the elements of a JSON array (after `[`, first
element expected); consumes the closing `]`. -/
def parseElements : Nat → List Char → Option (List Json × List Char)
  | 0, _ => none
  | n + 1, cs =>
    match parseValue n cs with
    | none => none
    | some (v, afterVal) =>
      match skipWs afterVal with
      | ',' :: afterComma =>
        (parseElements n afterComma).map fun p => (v :: p.1, p.2)
      | ']' :: afterBracket => some ([v], afterBracket)
      | _ => none

end

/-- Model of `JSON.parse(s)`: `some v` when parsing succeeds, `none` when
`JSON.parse` would throw. The whole input must be consumed (trailing
whitespace allowed). -/
def jsonParse (s : String) : Option Json :=
  match parseValue (s.data.length + 2) s.data with
  | some (v, rest) => if skipWs rest = [] then some v else none
  | none => none

/-! ## Error model (`src/errors.ts`) -/

/-- Model of the `ErrorResponse` type from `src/types.ts`: `error` is a
required string field, `message` an optional one. -/
structure ErrorResponse where
  error : String
  message : Option String
deriving DecidableEq

/-- Value-level model of a thrown `ThredError` (or subclass): the
distinguishing runtime data of the five error classes is the `name`
together with `message`, `statusCode` and `response`. -/
structure ThredErrorVal where
  name : String
  message : String
  statusCode : Option Nat
  response : Option ErrorResponse
deriving DecidableEq

/-- Model of `new ValidationError(message, response)`. -/
def validationError (m : String) (r : Option ErrorResponse) : ThredErrorVal :=
  ⟨"ValidationError", m, some 400, r⟩

/-- Model of `new AuthenticationError(message, response)`. -/
def authenticationError (m : String) (r : Option ErrorResponse) : ThredErrorVal :=
  ⟨"AuthenticationError", m, some 401, r⟩

/-- Model of `new ServerError(message, response)`. -/
def serverError (m : String) (r : Option ErrorResponse) : ThredErrorVal :=
  ⟨"ServerError", m, some 500, r⟩

/-- Model of `new ThredError(message, statusCode, response)`. -/
def thredError (m : String) (s : Nat) (r : Option ErrorResponse) : ThredErrorVal :=
  ⟨"ThredError", m, some s, r⟩

/-- Model of `new NetworkError(message)`. -/
def networkError (m : String) : ThredErrorVal :=
  ⟨"NetworkError", m, none, none⟩

/-- Model of `new TimeoutError(message)`. -/
def timeoutError (m : String) : ThredErrorVal :=
  ⟨"TimeoutError", m, none, none⟩

/-- Model of the `Response` object as observed by `handleApiError`:
status, status text, whether the `content-type` header includes
`application/json`, and the JSON body (`none` when `response.json()`
would reject). -/
structure HttpResponse where
  status : Nat
  statusText : String
  contentTypeJson : Bool
  jsonBody : Option ErrorResponse
deriving DecidableEq

/-- Model of JavaScript `a || b` on an optional string operand: an
`undefined` or empty string falls through to the alternative. -/
def jsOrStr (a : Option String) (b : String) : String :=
  match a with
  | none => b
  | some s => if s = "" then b else s

/-- The `errorData` local of `handleApiError`: the parsed body when the
content type is JSON and parsing succeeded, otherwise `undefined`
(the parse failure is swallowed by the empty `catch`). -/
def apiErrorData (r : HttpResponse) : Option ErrorResponse :=
  if r.contentTypeJson then r.jsonBody else none

/-- The `message` local of `handleApiError`:
`errorData?.message || errorData?.error || response.statusText`. -/
def apiErrorMessage (r : HttpResponse) : String :=
  jsOrStr ((apiErrorData r).bind ErrorResponse.message)
    (jsOrStr ((apiErrorData r).map ErrorResponse.error) r.statusText)

/-- Model of `handleApiError` from `src/errors.ts`: dispatch on the HTTP
status and throw the corresponding error value. -/
def handleApiError (r : HttpResponse) : ThredErrorVal :=
  match r.status with
  | 400 => validationError (apiErrorMessage r) (apiErrorData r)
  | 401 => authenticationError (apiErrorMessage r) (apiErrorData r)
  | 500 => serverError (apiErrorMessage r) (apiErrorData r)
  | s => thredError (apiErrorMessage r) s (apiErrorData r)

/-- Outcome of the underlying `fetch` call inside `fetchWithTimeout`:
either a response, or a thrown `Error` with its `name` and `message`. -/
inductive FetchOutcome where
  | success (r : HttpResponse)
  | failure (errName : String) (errMessage : String)
deriving DecidableEq

/-- Model of the `catch` clause of `fetchWithTimeout` (`src/client.ts`
lines 59-67): an `AbortError` becomes a `TimeoutError`, any other
transport failure a `NetworkError`. -/
def fetchFailureToError (timeout : Nat) (errName errMessage : String) : ThredErrorVal :=
  if errName = "AbortError" then
    timeoutError ("Request timed out after " ++ toString timeout ++ "ms")
  else
    networkError errMessage

/-- Model of `fetchWithTimeout`: a successful transport returns the
response, a failing one throws the classified error. -/
def fetchWithTimeoutResult (timeout : Nat) :
    FetchOutcome → Except ThredErrorVal HttpResponse
  | .success r => .ok r
  | .failure n m => .error (fetchFailureToError timeout n m)

/-! ## Request validation (`src/client.ts`) -/

/-- The three model names accepted by the client. -/
inductive ModelName where
  | gpt4
  | gpt4turbo
  | gpt35turbo
deriving DecidableEq

/-- Model of the `AnswerRequest` fields the client logic reads. -/
structure AnswerRequest where
  message : String
  model : Option ModelName
deriving DecidableEq

/-- Base URL captured at construction. -/
def clientBaseUrl : String := "https://api.thred.dev/v1"

/-- Model of a `fetch` invocation the client would issue: the URL and the
payload serialised into the body. -/
structure FetchCall where
  url : String
  method : String
  payload : AnswerRequest
deriving DecidableEq

/-- The shared validation guard of `answer`, `answerStream` and
`answerStreamGenerator`:
`!request.message || request.message.trim().length === 0`. -/
def messageInvalid (message : String) : Bool :=
  message = "" || (jsTrim message).data.length = 0

/-- The payload built after validation:
`{ ...request, model: request.model || defaultModel }`. -/
def buildPayload (defaultModel : ModelName) (request : AnswerRequest) : AnswerRequest :=
  { request with model := some (request.model.getD defaultModel) }

/-- Pre-network phase of `answer` (`src/client.ts` lines 75-97): the
validation throw happens before any `fetch`; on success the method issues
exactly the returned call. -/
def answerPrepare (defaultModel : ModelName) (request : AnswerRequest) :
    Except String FetchCall :=
  if messageInvalid request.message then .error "Message is required"
  else .ok ⟨clientBaseUrl ++ "/answer", "POST", buildPayload defaultModel request⟩

/-- Pre-network phase of `answerStream` (`src/client.ts` lines 112-137). -/
def answerStreamPrepare (defaultModel : ModelName) (request : AnswerRequest) :
    Except String FetchCall :=
  if messageInvalid request.message then .error "Message is required"
  else .ok ⟨clientBaseUrl ++ "/answer/stream", "POST", buildPayload defaultModel request⟩

/-- Pre-network phase of `answerStreamGenerator` (`src/client.ts` lines
231-255). -/
def answerStreamGeneratorPrepare (defaultModel : ModelName) (request : AnswerRequest) :
    Except String FetchCall :=
  if messageInvalid request.message then .error "Message is required"
  else .ok ⟨clientBaseUrl ++ "/answer/stream", "POST", buildPayload defaultModel request⟩

/-- Network calls issued by `answer` up to and including its `fetch`:
empty when validation throws first. -/
def answerCalls (defaultModel : ModelName) (request : AnswerRequest) : List FetchCall :=
  match answerPrepare defaultModel request with
  | .error _ => []
  | .ok f => [f]

/-- Network calls issued by `answerStream` up to and including its `fetch`. -/
def answerStreamCalls (defaultModel : ModelName) (request : AnswerRequest) : List FetchCall :=
  match answerStreamPrepare defaultModel request with
  | .error _ => []
  | .ok f => [f]

/-- Network calls issued by `answerStreamGenerator` up to and including its
`fetch`. -/
def answerStreamGeneratorCalls (defaultModel : ModelName) (request : AnswerRequest) :
    List FetchCall :=
  match answerStreamGeneratorPrepare defaultModel request with
  | .error _ => []
  | .ok f => [f]

/-! ## The stream splitter (`answerStream`, `src/client.ts` lines 150-223)

The loop is embedded one `reader.read()` iteration at a time
(`processChunk`), chained over the finite list of decoded chunks
(`runLoop`), followed by the end-of-stream fallback on a leftover buffer
(`finishBuffer`).  Observables are the list of `onChunk` arguments (each the
full accumulated text at that point) and the returned metadata. -/

/-- The delimiter scanned for on every read: two newlines followed by an
opening brace. -/
def streamDelim : String := "\n\n\x7b"

/-- The mutable locals `buffer` and `accumulatedText` of the streaming
loops. -/
structure SplitState where
  buffer : String
  accumulatedText : String
deriving DecidableEq

/-- One iteration of the `answerStream` read loop on a decoded `chunk`
(`src/client.ts` lines 162-189).  Returns the updated state, the list of
`onChunk` arguments emitted during this read, and `some metadata` when the
iteration executed `break` after a successful `JSON.parse`. -/
def processChunk (st : SplitState) (chunk : String) :
    SplitState × List String × Option Json :=
  let buffer := st.buffer ++ chunk
  match jsIndexOf buffer streamDelim with
  | some metadataIndex =>
    let textContent := jsSubstringTo buffer metadataIndex
    let acc :=
      if textContent = "" then st.accumulatedText
      else st.accumulatedText ++ textContent
    let emits : List String := if textContent = "" then [] else [acc]
    let metadataStr := jsSubstringFrom buffer (metadataIndex + 2)
    match jsonParse metadataStr with
    | some j => (⟨"", acc⟩, emits, some j)
    | none => (⟨buffer, acc⟩, emits, none)
  | none =>
    let acc := st.accumulatedText ++ buffer
    (⟨"", acc⟩, [acc], none)

/-- The `while (true)` read loop of `answerStream`: process the chunks in
order, stopping early when an iteration breaks with metadata.  Chunks after
the break are never read. -/
def runLoop (st : SplitState) : List String → SplitState × List String × Option Json
  | [] => (st, [], none)
  | c :: cs =>
    match processChunk st c with
    | (st', emits, some j) => (st', emits, some j)
    | (st', emits, none) =>
      let r := runLoop st' cs
      (r.1, emits ++ r.2.1, r.2.2)

/-- The end-of-stream fallback of `answerStream` (`src/client.ts` lines
192-218): split a leftover buffer on a blank line, re-emit the first
segment, and try to parse the joined remainder as metadata, treating it as
literal text (with the separator restored) when the parse fails. -/
def finishBuffer (st : SplitState) : SplitState × List String × Option Json :=
  if st.buffer = "" then (st, [], none)
  else
    match jsSplit st.buffer "\n\n" with
    | l0 :: l1 :: rest =>
      let textPart := l0
      let metadataPart := String.intercalate "\n\n" (l1 :: rest)
      let acc1 :=
        if textPart = "" then st.accumulatedText
        else st.accumulatedText ++ textPart
      let emits1 : List String := if textPart = "" then [] else [acc1]
      if metadataPart = "" then (⟨st.buffer, acc1⟩, emits1, none)
      else
        match jsonParse metadataPart with
        | some j => (⟨st.buffer, acc1⟩, emits1, some j)
        | none =>
          let acc2 := acc1 ++ "\n\n" ++ metadataPart
          (⟨st.buffer, acc2⟩, emits1 ++ [acc2], none)
    | _ =>
      let acc := st.accumulatedText ++ st.buffer
      (⟨st.buffer, acc⟩, [acc], none)

/-- Complete run of the `answerStream` splitting logic on a chunk list:
read loop, then fallback.  Returns the final state, all `onChunk`
arguments in order, and the metadata returned by the method (`null`
modelled as `none`).  The fallback's parse result overwrites the loop's
only when the fallback actually runs and parses successfully, exactly as
the single `metadata` local does in the source. -/
def answerStreamFull (chunks : List String) : SplitState × List String × Option Json :=
  let r := runLoop ⟨"", ""⟩ chunks
  let f := finishBuffer r.1
  (f.1, r.2.1 ++ f.2.1, match f.2.2 with | some j => some j | none => r.2.2)

/-- The observables of `answerStream`: the `onChunk` argument sequence and
the returned metadata. -/
def answerStreamRun (chunks : List String) : List String × Option Json :=
  ((answerStreamFull chunks).2.1, (answerStreamFull chunks).2.2)

/-! ## The generator variant (`answerStreamGenerator`, lines 266-341) -/

/-- An element yielded by `answerStreamGenerator`: either the accumulated
text so far or the wrapped metadata object. -/
inductive StreamEvent where
  | text (accumulated : String)
  | meta (metadata : Json)

/-- One iteration of the `answerStreamGenerator` read loop
(`src/client.ts` lines 279-308).  The `Bool` records whether the iteration
executed `break` (after yielding the parsed metadata). -/
def processChunkGen (st : SplitState) (chunk : String) :
    SplitState × List StreamEvent × Bool :=
  let buffer := st.buffer ++ chunk
  match jsIndexOf buffer streamDelim with
  | some metadataIndex =>
    let textContent := jsSubstringTo buffer metadataIndex
    let acc :=
      if textContent = "" then st.accumulatedText
      else st.accumulatedText ++ textContent
    let emits : List StreamEvent :=
      if textContent = "" then [] else [StreamEvent.text acc]
    let metadataStr := jsSubstringFrom buffer (metadataIndex + 2)
    match jsonParse metadataStr with
    | some j => (⟨"", acc⟩, emits ++ [StreamEvent.meta j], true)
    | none => (⟨buffer, acc⟩, emits, false)
  | none =>
    let acc := st.accumulatedText ++ buffer
    (⟨"", acc⟩, [StreamEvent.text acc], false)

/-- The read loop of `answerStreamGenerator`. -/
def runLoopGen (st : SplitState) : List String → SplitState × List StreamEvent × Bool
  | [] => (st, [], false)
  | c :: cs =>
    match processChunkGen st c with
    | (st', evs, true) => (st', evs, true)
    | (st', evs, false) =>
      let r := runLoopGen st' cs
      (r.1, evs ++ r.2.1, r.2.2)

/-- The end-of-stream fallback of `answerStreamGenerator` (`src/client.ts`
lines 312-338). -/
def finishBufferGen (st : SplitState) : List StreamEvent :=
  if st.buffer = "" then []
  else
    match jsSplit st.buffer "\n\n" with
    | l0 :: l1 :: rest =>
      let textPart := l0
      let metadataPart := String.intercalate "\n\n" (l1 :: rest)
      let acc1 :=
        if textPart = "" then st.accumulatedText
        else st.accumulatedText ++ textPart
      let evs1 : List StreamEvent :=
        if textPart = "" then [] else [StreamEvent.text acc1]
      if metadataPart = "" then evs1
      else
        match jsonParse metadataPart with
        | some j => evs1 ++ [StreamEvent.meta j]
        | none => evs1 ++ [StreamEvent.text (acc1 ++ "\n\n" ++ metadataPart)]
    | _ =>
      [StreamEvent.text (st.accumulatedText ++ st.buffer)]

/-- Complete run of `answerStreamGenerator` on a chunk list: the yielded
elements in order. -/
def answerStreamGenRun (chunks : List String) : List StreamEvent :=
  let r := runLoopGen ⟨"", ""⟩ chunks
  r.2.1 ++ finishBufferGen r.1

/-- The accumulated-text values among the yielded elements. -/
def eventTexts (evs : List StreamEvent) : List String :=
  evs.filterMap fun e =>
    match e with
    | .text s => some s
    | .meta _ => none

/-- The metadata objects among the yielded elements. -/
def eventMetas (evs : List StreamEvent) : List Json :=
  evs.filterMap fun e =>
    match e with
    | .text _ => none
    | .meta j => some j

/-- The first yielded metadata object, if any. -/
def eventMeta (evs : List StreamEvent) : Option Json :=
  (eventMetas evs).head?

/-! ## Specification-side notions used by the theorems -/

/-- String prefix order (on the character sequences). -/
def strPre (a b : String) : Prop :=
  a.data <+: b.data

/-- Emission bookkeeping for one phase of a splitting run: starting from
accumulated text `acc0`, the emitted accumulated-text values `emits` form a
monotone chain under the prefix order that starts above `acc0` and ends at
the final accumulated text `acc1`, and `acc1` is the last emitted value
(or `acc0` when the phase emitted nothing). -/
def EmitsOk (acc0 : String) (emits : List String) (acc1 : String) : Prop :=
  List.Chain' strPre (acc0 :: (emits ++ [acc1])) ∧ acc1 = emits.getLastD acc0

/-- Shape of a well-formed generator trace: some accumulated-text values
followed by at most one metadata element, which is last. -/
def TraceShape (evs : List StreamEvent) : Prop :=
  ∃ (ts : List String) (m : Option Json),
    evs = ts.map StreamEvent.text ++ (Option.map StreamEvent.meta m).toList

end ThredJs

namespace ThredJs

/-! ## Prefix-order infrastructure -/

theorem strPre_refl (a : String) : strPre a a :=
  List.prefix_refl _

theorem strPre_trans : Transitive strPre :=
  fun _ _ _ h1 h2 => List.IsPrefix.trans h1 h2

instance : IsTrans String strPre :=
  ⟨fun _ _ _ h1 h2 => List.IsPrefix.trans h1 h2⟩

theorem strPre_append (a b : String) : strPre a (a ++ b) := by
  unfold strPre
  rw [String.data_append]
  exact List.prefix_append _ _

theorem chain'_glue {α : Type} {R : α → α → Prop} (ht : Transitive R)
    {xs ys : List α} {b : α}
    (h1 : List.Chain' R (xs ++ [b])) (h2 : List.Chain' R (b :: ys)) :
    List.Chain' R (xs ++ ys) := by
  rcases List.chain'_append.mp h1 with ⟨hxs, -, hlink⟩
  rcases List.chain'_cons'.mp h2 with ⟨hhead, hys⟩
  refine List.chain'_append.mpr ⟨hxs, hys, ?_⟩
  intro x hx y hy
  exact ht (hlink x hx b (by simp)) (hhead y hy)

theorem getLastD_append {α : Type} (l l' : List α) (a : α) :
    (l ++ l').getLastD a = l'.getLastD (l.getLastD a) := by
  cases l' with
  | nil => simp
  | cons y t =>
    rw [List.getLastD_eq_getLast?, List.getLast?_append, List.getLastD_eq_getLast?]
    cases h : (y :: t).getLast? with
    | none => simp at h
    | some x => simp [Option.or]

theorem emitsOk_nil (a : String) : EmitsOk a [] a := by
  constructor
  · simpa [List.chain'_cons] using strPre_refl a
  · simp

theorem emitsOk_single {a b : String} (h : strPre a b) : EmitsOk a [b] b := by
  constructor
  · simpa [List.chain'_cons] using ⟨h, strPre_refl b⟩
  · simp

theorem emitsOk_append {a b c : String} {l l' : List String}
    (h1 : EmitsOk a l b) (h2 : EmitsOk b l' c) : EmitsOk a (l ++ l') c := by
  rcases h1 with ⟨hc1, hl1⟩
  rcases h2 with ⟨hc2, hl2⟩
  constructor
  · have := @chain'_glue String strPre strPre_trans (a :: l) (l' ++ [c]) b
      (by simpa using hc1) (by simpa using hc2)
    simpa using this
  · rw [getLastD_append, ← hl1, hl2]

theorem emitsOk_le {a l b} (h : EmitsOk a l b) : strPre a b := by
  rcases h with ⟨hc, -⟩
  have hp : List.Pairwise strPre (a :: (l ++ [b])) :=
    List.chain'_iff_pairwise.mp hc
  rcases List.pairwise_cons.mp hp with ⟨hab, -⟩
  exact hab b (by simp)

theorem emitsOk_pairwise {a l b} (h : EmitsOk a l b) : List.Pairwise strPre l := by
  rcases h with ⟨hc, -⟩
  have hp : List.Pairwise strPre (a :: (l ++ [b])) :=
    List.chain'_iff_pairwise.mp hc
  rcases List.pairwise_cons.mp hp with ⟨-, hrest⟩
  exact (List.pairwise_append.mp hrest).1

theorem emitsOk_mem_le {a l b} (h : EmitsOk a l b) : ∀ e ∈ l, strPre e b := by
  rcases h with ⟨hc, -⟩
  have hp : List.Pairwise strPre (a :: (l ++ [b])) :=
    List.chain'_iff_pairwise.mp hc
  rcases List.pairwise_cons.mp hp with ⟨-, hrest⟩
  rcases List.pairwise_append.mp hrest with ⟨-, -, hcross⟩
  intro e he
  exact hcross e he b (by simp)

/-! ## Emission invariants of the splitting phases -/

theorem processChunk_emitsOk (st : SplitState) (c : String) :
    EmitsOk st.accumulatedText (processChunk st c).2.1
      (processChunk st c).1.accumulatedText := by
  unfold processChunk
  cases h : jsIndexOf (st.buffer ++ c) streamDelim with
  | none => simpa [h] using emitsOk_single (strPre_append _ _)
  | some i =>
    by_cases ht : jsSubstringTo (st.buffer ++ c) i = ""
    · cases hp : jsonParse (jsSubstringFrom (st.buffer ++ c) (i + 2)) with
      | none => simpa [h, ht, hp] using emitsOk_nil _
      | some j => simpa [h, ht, hp] using emitsOk_nil _
    · cases hp : jsonParse (jsSubstringFrom (st.buffer ++ c) (i + 2)) with
      | none => simpa [h, ht, hp] using emitsOk_single (strPre_append _ _)
      | some j => simpa [h, ht, hp] using emitsOk_single (strPre_append _ _)

theorem runLoop_emitsOk (cs : List String) (st : SplitState) :
    EmitsOk st.accumulatedText (runLoop st cs).2.1
      (runLoop st cs).1.accumulatedText := by
  induction cs generalizing st with
  | nil => simpa [runLoop] using emitsOk_nil _
  | cons c cs ih =>
    have hpc := processChunk_emitsOk st c
    rcases hp : processChunk st c with ⟨st', emits, m⟩
    rw [hp] at hpc
    cases m with
    | some j => simpa [runLoop, hp] using hpc
    | none =>
      have := emitsOk_append hpc (ih st')
      simpa [runLoop, hp] using this

theorem finishBuffer_emitsOk (st : SplitState) :
    EmitsOk st.accumulatedText (finishBuffer st).2.1
      (finishBuffer st).1.accumulatedText := by
  unfold finishBuffer
  by_cases hb : st.buffer = ""
  · simpa [hb] using emitsOk_nil _
  · simp only [hb, if_false]
    cases hsp : jsSplit st.buffer "\n\n" with
    | nil => simpa using emitsOk_single (strPre_append _ _)
    | cons l0 tail =>
      cases tail with
      | nil => simpa using emitsOk_single (strPre_append _ _)
      | cons l1 rest =>
        by_cases hm : String.intercalate "\n\n" (l1 :: rest) = ""
        · by_cases ht : l0 = ""
          · simpa [ht, hm] using emitsOk_nil _
          · simpa [ht, hm] using emitsOk_single (strPre_append _ _)
        · cases hp : jsonParse (String.intercalate "\n\n" (l1 :: rest)) with
          | some j =>
            by_cases ht : l0 = ""
            · simpa [ht, hm, hp] using emitsOk_nil _
            · simpa [ht, hm, hp] using emitsOk_single (strPre_append _ _)
          | none =>
            by_cases ht : l0 = ""
            · simpa [ht, hm, hp] using
                emitsOk_single (strPre_trans (strPre_append _ "\n\n") (strPre_append _ _))
            · simpa [ht, hm, hp] using
                emitsOk_append (emitsOk_single (strPre_append _ _))
                  (emitsOk_single (strPre_trans (strPre_append _ "\n\n") (strPre_append _ _)))

theorem answerStreamFull_emitsOk (chunks : List String) :
    EmitsOk "" (answerStreamFull chunks).2.1
      (answerStreamFull chunks).1.accumulatedText := by
  have h1 := runLoop_emitsOk chunks ⟨"", ""⟩
  have h2 := finishBuffer_emitsOk (runLoop ⟨"", ""⟩ chunks).1
  have h3 := emitsOk_append h1 h2
  simpa [answerStreamFull] using h3

/-! ## Buffer bookkeeping -/

theorem processChunk_some_buffer {st : SplitState} {c : String}
    (h : (processChunk st c).2.2.isSome = true) :
    (processChunk st c).1.buffer = "" := by
  unfold processChunk at h ⊢
  cases hi : jsIndexOf (st.buffer ++ c) streamDelim with
  | none => simp [hi] at h
  | some i =>
    cases hp : jsonParse (jsSubstringFrom (st.buffer ++ c) (i + 2)) with
    | none => simp [hi, hp] at h
    | some j => simp [hi, hp]

theorem runLoop_some_buffer {cs : List String} {st : SplitState}
    (h : (runLoop st cs).2.2.isSome = true) :
    (runLoop st cs).1.buffer = "" := by
  induction cs generalizing st with
  | nil => simp [runLoop] at h
  | cons c cs ih =>
    rcases hp : processChunk st c with ⟨st', emits, m⟩
    cases m with
    | some j =>
      have := @processChunk_some_buffer st c (by simp [hp])
      rw [hp] at this
      simpa [runLoop, hp] using this
    | none =>
      rw [runLoop, hp] at h ⊢
      exact ih (by simpa using h)

theorem finishBuffer_of_empty {st : SplitState} (h : st.buffer = "") :
    finishBuffer st = (st, [], none) := by
  simp [finishBuffer, h]

theorem finishBufferGen_of_empty {st : SplitState} (h : st.buffer = "") :
    finishBufferGen st = [] := by
  simp [finishBufferGen, h]

/-! ## Correspondence between the generator and the callback loop -/

theorem eventTexts_append (a b : List StreamEvent) :
    eventTexts (a ++ b) = eventTexts a ++ eventTexts b :=
  List.filterMap_append _ _ _

theorem eventMetas_append (a b : List StreamEvent) :
    eventMetas (a ++ b) = eventMetas a ++ eventMetas b :=
  List.filterMap_append _ _ _

theorem eventTexts_map_text (ts : List String) :
    eventTexts (ts.map StreamEvent.text) = ts := by
  induction ts with
  | nil => rfl
  | cons t ts ih => simp [eventTexts] at ih ⊢; exact ih

theorem eventMetas_map_text (ts : List String) :
    eventMetas (ts.map StreamEvent.text) = [] := by
  induction ts with
  | nil => rfl
  | cons t ts _ => simp [eventMetas]

theorem eventTexts_nil : eventTexts [] = [] := rfl

theorem eventTexts_text_cons (s : String) (evs : List StreamEvent) :
    eventTexts (StreamEvent.text s :: evs) = s :: eventTexts evs := rfl

theorem eventTexts_meta_cons (j : Json) (evs : List StreamEvent) :
    eventTexts (StreamEvent.meta j :: evs) = eventTexts evs := rfl

theorem eventMetas_nil : eventMetas [] = [] := rfl

theorem eventMetas_text_cons (s : String) (evs : List StreamEvent) :
    eventMetas (StreamEvent.text s :: evs) = eventMetas evs := rfl

theorem eventMetas_meta_cons (j : Json) (evs : List StreamEvent) :
    eventMetas (StreamEvent.meta j :: evs) = j :: eventMetas evs := rfl

theorem eventTexts_meta_toList (m : Option Json) :
    eventTexts (Option.map StreamEvent.meta m).toList = [] := by
  cases m <;> rfl

theorem eventMetas_meta_toList (m : Option Json) :
    eventMetas (Option.map StreamEvent.meta m).toList = m.toList := by
  cases m <;> rfl

theorem processChunkGen_eq (st : SplitState) (c : String) :
    processChunkGen st c =
      ((processChunk st c).1,
       (processChunk st c).2.1.map StreamEvent.text ++
         (Option.map StreamEvent.meta (processChunk st c).2.2).toList,
       (processChunk st c).2.2.isSome) := by
  unfold processChunk processChunkGen
  cases h : jsIndexOf (st.buffer ++ c) streamDelim with
  | none => simp [h]
  | some i =>
    by_cases ht : jsSubstringTo (st.buffer ++ c) i = "" <;>
      cases hp : jsonParse (jsSubstringFrom (st.buffer ++ c) (i + 2)) <;>
      simp [h, ht, hp]

theorem runLoopGen_eq (cs : List String) (st : SplitState) :
    runLoopGen st cs =
      ((runLoop st cs).1,
       (runLoop st cs).2.1.map StreamEvent.text ++
         (Option.map StreamEvent.meta (runLoop st cs).2.2).toList,
       (runLoop st cs).2.2.isSome) := by
  induction cs generalizing st with
  | nil => simp [runLoop, runLoopGen]
  | cons c cs ih =>
    have hg := processChunkGen_eq st c
    rcases hp : processChunk st c with ⟨st', emits, m⟩
    rw [hp] at hg
    cases m with
    | some j => simp [runLoop, runLoopGen, hp, hg]
    | none => simp [runLoop, runLoopGen, hp, hg, ih]

theorem finishBufferGen_eq (st : SplitState) :
    finishBufferGen st =
      (finishBuffer st).2.1.map StreamEvent.text ++
        (Option.map StreamEvent.meta (finishBuffer st).2.2).toList := by
  unfold finishBuffer finishBufferGen
  by_cases hb : st.buffer = ""
  · simp [hb]
  · simp only [hb, if_false]
    cases hsp : jsSplit st.buffer "\n\n" with
    | nil => simp
    | cons l0 tail =>
      cases tail with
      | nil => simp
      | cons l1 rest =>
        by_cases hm : String.intercalate "\n\n" (l1 :: rest) = ""
        · by_cases ht : l0 = "" <;> simp [ht, hm]
        · cases hp : jsonParse (String.intercalate "\n\n" (l1 :: rest)) with
          | some j => by_cases ht : l0 = "" <;> simp [ht, hm, hp]
          | none => by_cases ht : l0 = "" <;> simp [ht, hm, hp]

theorem answerStreamGenRun_texts (chunks : List String) :
    eventTexts (answerStreamGenRun chunks) = (answerStreamRun chunks).1 := by
  have hg := runLoopGen_eq chunks ⟨"", ""⟩
  rcases hl : runLoop ⟨"", ""⟩ chunks with ⟨stL, emL, mL⟩
  rw [hl] at hg
  cases mL with
  | some j =>
    have hbuf : stL.buffer = "" := by
      have h2 := @runLoop_some_buffer chunks ⟨"", ""⟩ (by rw [hl]; rfl)
      rwa [hl] at h2
    simp [answerStreamGenRun, answerStreamRun, answerStreamFull, hg, hl,
      finishBufferGen_of_empty hbuf, finishBuffer_of_empty hbuf,
      eventTexts_append, eventTexts_map_text, eventTexts_meta_toList,
      eventTexts_nil, eventTexts_text_cons, eventTexts_meta_cons]
  | none =>
    simp [answerStreamGenRun, answerStreamRun, answerStreamFull, hg, hl,
      finishBufferGen_eq, eventTexts_append, eventTexts_map_text,
      eventTexts_meta_toList, eventTexts_nil, eventTexts_text_cons,
      eventTexts_meta_cons]

theorem answerStreamGenRun_meta (chunks : List String) :
    eventMeta (answerStreamGenRun chunks) = (answerStreamRun chunks).2 := by
  have hg := runLoopGen_eq chunks ⟨"", ""⟩
  rcases hl : runLoop ⟨"", ""⟩ chunks with ⟨stL, emL, mL⟩
  rw [hl] at hg
  cases mL with
  | some j =>
    have hbuf : stL.buffer = "" := by
      have h2 := @runLoop_some_buffer chunks ⟨"", ""⟩ (by rw [hl]; rfl)
      rwa [hl] at h2
    simp [answerStreamGenRun, answerStreamRun, answerStreamFull, eventMeta, hg, hl,
      finishBufferGen_of_empty hbuf, finishBuffer_of_empty hbuf,
      eventMetas_append, eventMetas_map_text, eventMetas_meta_toList,
      eventMetas_nil, eventMetas_text_cons, eventMetas_meta_cons]
  | none =>
    cases hf : (finishBuffer stL).2.2 with
    | some j2 =>
      simp [answerStreamGenRun, answerStreamRun, answerStreamFull, eventMeta, hg, hl,
        finishBufferGen_eq, hf, eventMetas_append, eventMetas_map_text,
        eventMetas_meta_toList, eventMetas_nil, eventMetas_text_cons,
        eventMetas_meta_cons]
    | none =>
      simp [answerStreamGenRun, answerStreamRun, answerStreamFull, eventMeta, hg, hl,
        finishBufferGen_eq, hf, eventMetas_append, eventMetas_map_text,
        eventMetas_meta_toList, eventMetas_nil, eventMetas_text_cons,
        eventMetas_meta_cons]

theorem answerStreamGenRun_shape (chunks : List String) :
    TraceShape (answerStreamGenRun chunks) := by
  have hg := runLoopGen_eq chunks ⟨"", ""⟩
  rcases hl : runLoop ⟨"", ""⟩ chunks with ⟨stL, emL, mL⟩
  rw [hl] at hg
  cases mL with
  | some j =>
    have hbuf : stL.buffer = "" := by
      have h2 := @runLoop_some_buffer chunks ⟨"", ""⟩ (by rw [hl]; rfl)
      rwa [hl] at h2
    refine ⟨emL, some j, ?_⟩
    simp [answerStreamGenRun, hg, finishBufferGen_of_empty hbuf]
  | none =>
    refine ⟨emL ++ (finishBuffer stL).2.1, (finishBuffer stL).2.2, ?_⟩
    simp [answerStreamGenRun, hg, finishBufferGen_eq]


/-! ## Stability of the first delimiter occurrence under appends -/

theorem firstOccurAux_bound {pat l : List Char} {i : Nat}
    (h : firstOccurAux pat l = some i) : i + pat.length ≤ l.length := by
  induction l generalizing i with
  | nil =>
    unfold firstOccurAux at h
    by_cases hp : List.isPrefixOf pat ([] : List Char)
    · rw [if_pos hp] at h
      obtain rfl : (0 : Nat) = i := by simpa using h
      have hpre : pat <+: ([] : List Char) := List.isPrefixOf_iff_prefix.mp hp
      simpa using List.IsPrefix.length_le hpre
    · rw [if_neg hp] at h
      exact absurd h (by simp)
  | cons c cs ih =>
    unfold firstOccurAux at h
    by_cases hp : List.isPrefixOf pat (c :: cs)
    · rw [if_pos hp] at h
      obtain rfl : (0 : Nat) = i := by simpa using h
      have hpre := List.IsPrefix.length_le ( List.isPrefixOf_iff_prefix.mp hp)
      simpa using hpre
    · rw [if_neg hp] at h
      obtain ⟨i', hi', rfl⟩ := Option.map_eq_some'.mp h
      have := ih hi'
      simp only [List.length_cons]
      omega

theorem not_isPrefixOf_append {pat l : List Char} (hlen : pat.length ≤ l.length)
    (h : ¬ List.isPrefixOf pat l = true) (ys : List Char) :
    ¬ List.isPrefixOf pat (l ++ ys) = true := by
  intro hc
  apply h
  rw [ List.isPrefixOf_iff_prefix] at hc ⊢
  rw [List.prefix_iff_eq_take] at hc ⊢
  have h1 : List.take pat.length (l ++ ys) = List.take pat.length l :=
    List.take_append_of_le_length hlen
  exact hc.trans h1

theorem firstOccurAux_append {pat l : List Char} {i : Nat}
    (h : firstOccurAux pat l = some i) (ys : List Char) :
    firstOccurAux pat (l ++ ys) = some i := by
  induction l generalizing i with
  | nil =>
    unfold firstOccurAux at h
    by_cases hp : List.isPrefixOf pat ([] : List Char)
    · have hpat : pat = [] := by
        have hpre := List.isPrefixOf_iff_prefix.mp hp
        simpa using hpre
      rw [if_pos hp] at h
      obtain rfl : (0 : Nat) = i := by simpa using h
      subst hpat
      cases ys with
      | nil => simp [firstOccurAux]
      | cons y t => simp [firstOccurAux]
    · rw [if_neg hp] at h
      exact absurd h (by simp)
  | cons c cs ih =>
    by_cases hp : List.isPrefixOf pat (c :: cs)
    · unfold firstOccurAux at h
      rw [if_pos hp] at h
      obtain rfl : (0 : Nat) = i := by simpa using h
      have hp2 : List.isPrefixOf pat (c :: (cs ++ ys)) = true := by
        rw [ List.isPrefixOf_iff_prefix] at hp ⊢
        rw [← List.cons_append]
        exact hp.trans (List.prefix_append _ _)
      show firstOccurAux pat (c :: (cs ++ ys)) = some 0
      unfold firstOccurAux
      rw [if_pos hp2]
    · unfold firstOccurAux at h
      rw [if_neg hp] at h
      obtain ⟨i', hi', rfl⟩ := Option.map_eq_some'.mp h
      have hlen : pat.length ≤ (c :: cs).length := by
        have hb := firstOccurAux_bound hi'
        simp only [List.length_cons]
        omega
      have hp2 := not_isPrefixOf_append hlen hp ys
      rw [List.cons_append] at hp2
      show firstOccurAux pat (c :: (cs ++ ys)) = some (Nat.succ i')
      unfold firstOccurAux
      rw [if_neg hp2, ih hi']
      rfl

theorem jsIndexOf_append {b : String} {i : Nat}
    (h : jsIndexOf b streamDelim = some i) (c : String) :
    jsIndexOf (b ++ c) streamDelim = some i := by
  unfold jsIndexOf at h ⊢
  rw [String.data_append]
  exact firstOccurAux_append h _

theorem jsIndexOf_le_length {b pat : String} {i : Nat}
    (h : jsIndexOf b pat = some i) : i + pat.data.length ≤ b.data.length :=
  firstOccurAux_bound h

theorem jsSubstringFrom_append {b : String} {n : Nat}
    (hn : n ≤ b.data.length) (c : String) :
    jsSubstringFrom (b ++ c) n = jsSubstringFrom b n ++ c := by
  apply String.ext
  show ((b ++ c).data.drop n) = (jsSubstringFrom b n ++ c).data
  rw [String.data_append, List.drop_append_of_le_length hn, String.data_append]
  rfl

/-! ## Conservation on delimiter-free chunk lists -/

theorem foldl_append_eq_append_join (cs : List String) (acc : String) :
    cs.foldl (· ++ ·) acc = acc ++ String.join cs := by
  induction cs generalizing acc with
  | nil => simp [String.join]
  | cons c cs ih =>
    have hj : String.join (c :: cs) = c ++ String.join cs := by
      show List.foldl (· ++ ·) ("" ++ c) cs = c ++ String.join cs
      rw [ih ("" ++ c)]
      simp
    rw [List.foldl_cons, ih (acc ++ c), hj, String.append_assoc]

theorem runLoop_no_delim (cs : List String) (acc : String)
    (h : ∀ c ∈ cs, jsIndexOf c streamDelim = none) :
    (runLoop ⟨"", acc⟩ cs).1 = ⟨"", acc ++ String.join cs⟩ ∧
      (runLoop ⟨"", acc⟩ cs).2.2 = none := by
  induction cs generalizing acc with
  | nil => simp [runLoop, String.join]
  | cons c cs ih =>
    have hc : jsIndexOf c streamDelim = none := h c (by simp)
    have hpc : processChunk ⟨"", acc⟩ c = (⟨"", acc ++ c⟩, [acc ++ c], none) := by
      unfold processChunk
      simp [hc]
    have ih2 := ih (acc ++ c) (fun x hx => h x (by simp [hx]))
    have hj : String.join (c :: cs) = c ++ String.join cs := by
      show List.foldl (· ++ ·) ("" ++ c) cs = c ++ String.join cs
      rw [foldl_append_eq_append_join]
      simp
    constructor
    · rw [runLoop, hpc]
      simp only []
      rw [ih2.1]
      simp [hj, String.append_assoc]
    · rw [runLoop, hpc]
      simp only []
      rw [ih2.2]

theorem jsonParse_empty : jsonParse "" = none := by
  rfl


/-! ## Claim theorems -/

/-- C1: the spec demands that for a fixed byte sequence of the form
answer-text + blank line + JSON object, every chunking of the sequence
produces the same observable result (final accumulated text = the answer
text, metadata = the parsed object).  The code violates this: delivering
`"Hello world\n\n{"brandUsed":null}"` in one chunk gives text
`"Hello world"` and the parsed metadata, but splitting inside the
delimiter (`…"Hello world\n"` / `"\n{…}"…`) makes the delimiter
undetectable, so the whole payload is emitted as answer text and no
metadata is returned, and splitting inside the JSON duplicates the answer
text (`"Hello worldHello world"`).  This theorem evaluates the embedded
`answerStream` loop at those failing inputs. -/
theorem rechunking_changes_result :
    answerStreamRun ["Hello world\n\n\x7b\"brandUsed\":null\x7d"] =
      (["Hello world"], some (Json.obj [("brandUsed", Json.null)])) ∧
    answerStreamRun ["Hello world\n", "\n\x7b\"brandUsed\":null\x7d"] =
      (["Hello world\n", "Hello world\n\n\x7b\"brandUsed\":null\x7d"], none) ∧
    answerStreamRun ["Hello world\n\n\x7b\"brandUsed\"", ":null\x7d"] =
      (["Hello world", "Hello worldHello world"],
        some (Json.obj [("brandUsed", Json.null)])) :=
  ⟨rfl, rfl, rfl⟩

/-- C2: for every finite chunk sequence, (i) the generator's trace consists
of accumulated-text values followed by at most one metadata element, which
is last; (ii) the final accumulated text of `answerStream` is the last
value passed to `onChunk` (or empty if none was), so all classified answer
text is reflected in an emission; (iii) every emitted value is a prefix of
that last emission (text is reflected in arrival order); and (iv) when no
read ever sees the delimiter, the last emission is exactly the
concatenation of all chunks and no metadata is produced. -/
theorem stream_delivery_guarantees (chunks : List String) :
    TraceShape (answerStreamGenRun chunks) ∧
    (answerStreamFull chunks).1.accumulatedText =
      (answerStreamRun chunks).1.getLastD "" ∧
    (∀ e ∈ (answerStreamRun chunks).1,
      strPre e ((answerStreamRun chunks).1.getLastD "")) ∧
    ((∀ c ∈ chunks, jsIndexOf c streamDelim = none) →
      (answerStreamRun chunks).1.getLastD "" = String.join chunks ∧
      (answerStreamRun chunks).2 = none) := by
  have hok := answerStreamFull_emitsOk chunks
  have hlast : (answerStreamFull chunks).1.accumulatedText =
      (answerStreamRun chunks).1.getLastD "" := hok.2
  refine ⟨answerStreamGenRun_shape chunks, hlast, ?_, ?_⟩
  · intro e he
    rw [← hlast]
    exact emitsOk_mem_le hok e he
  · intro h
    have hrl := runLoop_no_delim chunks "" h
    have hst : (runLoop ⟨"", ""⟩ chunks).1 = ⟨"", String.join chunks⟩ := by
      rw [hrl.1]; simp
    have hfin := @finishBuffer_of_empty (runLoop ⟨"", ""⟩ chunks).1 (by rw [hst])
    constructor
    · rw [← hlast]
      show (finishBuffer (runLoop ⟨"", ""⟩ chunks).1).1.accumulatedText = _
      rw [hfin, hst]
    · show (match (finishBuffer (runLoop ⟨"", ""⟩ chunks).1).2.2 with
        | some j => some j
        | none => (runLoop ⟨"", ""⟩ chunks).2.2) = none
      rw [hfin, hrl.2]

/-- C2 witness: the guarantees evaluated on the concrete delimiter-free
chunk sequence `["ab", "cd"]`. -/
theorem stream_delivery_guarantees_witness :
    (answerStreamRun ["ab", "cd"]).1.getLastD "" = String.join ["ab", "cd"] ∧
    (answerStreamRun ["ab", "cd"]).2 = none :=
  (stream_delivery_guarantees ["ab", "cd"]).2.2.2 (by decide)

/-- C3 counterexample: for the single read `"A\n\n{x"` the delimiter is
found (at index 1) and `JSON.parse` of the candidate `"{x"` fails, yet the
read does emit a text event (with accumulated text `"A"`), contradicting
the claim that the splitter emits nothing for such a read. -/
theorem failed_parse_read_still_emits :
    jsIndexOf ("" ++ "A\n\n\x7bx") streamDelim = some 1 ∧
    jsonParse (jsSubstringFrom ("" ++ "A\n\n\x7bx") (1 + 2)) = none ∧
    (processChunk ⟨"", ""⟩ "A\n\n\x7bx").2.1 = ["A"] ∧
    (processChunk ⟨"", ""⟩ "A\n\n\x7bx").2.1 ≠ [] :=
  ⟨rfl, rfl, rfl, by decide⟩

/-- C3 (amended): when the delimiter has been found in the pending buffer
but `JSON.parse` of the candidate fails, the read produces no metadata
(in either delivery shape), the pending buffer (including the metadata
candidate) is not cleared, and on every subsequent read the delimiter is
found at the same index and the parse is retried against the grown
candidate; however the text before the delimiter, if non-empty, is still
emitted as a text event on such a read (see the counterexample). -/
theorem failed_parse_retry_behavior (st : SplitState) (c : String) (i : Nat)
    (hidx : jsIndexOf (st.buffer ++ c) streamDelim = some i)
    (hparse : jsonParse (jsSubstringFrom (st.buffer ++ c) (i + 2)) = none) :
    (processChunk st c).2.2 = none ∧
    (processChunk st c).1.buffer = st.buffer ++ c ∧
    (processChunkGen st c).2.2 = false ∧
    (processChunkGen st c).1.buffer = st.buffer ++ c ∧
    eventMetas (processChunkGen st c).2.1 = [] ∧
    ∀ c' : String,
      jsIndexOf ((processChunk st c).1.buffer ++ c') streamDelim = some i ∧
      jsSubstringFrom ((processChunk st c).1.buffer ++ c') (i + 2) =
        jsSubstringFrom (st.buffer ++ c) (i + 2) ++ c' := by
  have hgen := processChunkGen_eq st c
  have hlen : i + 2 ≤ (st.buffer ++ c).data.length := by
    have hb := jsIndexOf_le_length hidx
    have h3 : streamDelim.data.length = 3 := rfl
    omega
  have hbuf : (processChunk st c).1.buffer = st.buffer ++ c := by
    unfold processChunk
    by_cases ht : jsSubstringTo (st.buffer ++ c) i = "" <;>
      simp [hidx, hparse, ht]
  have hnone : (processChunk st c).2.2 = none := by
    unfold processChunk
    by_cases ht : jsSubstringTo (st.buffer ++ c) i = "" <;>
      simp [hidx, hparse, ht]
  have hemits : eventMetas (processChunkGen st c).2.1 = [] := by
    rw [hgen, hnone]
    by_cases ht : jsSubstringTo (st.buffer ++ c) i = "" <;>
      simp [eventMetas_append, eventMetas_map_text]
  refine ⟨hnone, hbuf, ?_, ?_, hemits, ?_⟩
  · rw [hgen, hnone]; rfl
  · rw [hgen]; exact hbuf
  · intro c'
    rw [hbuf]
    exact ⟨jsIndexOf_append hidx c', jsSubstringFrom_append hlen c'⟩

/-- C3 witness: the amended behaviour evaluated on the read `"A\n\n{B"`
from the initial state. -/
theorem failed_parse_retry_behavior_witness :
    (processChunk ⟨"", ""⟩ "A\n\n\x7bB").2.2 = none ∧
    (processChunk ⟨"", ""⟩ "A\n\n\x7bB").1.buffer = "" ++ "A\n\n\x7bB" ∧
    jsIndexOf ((processChunk ⟨"", ""⟩ "A\n\n\x7bB").1.buffer ++ "x") streamDelim =
      some 1 :=
  have h := failed_parse_retry_behavior ⟨"", ""⟩ "A\n\n\x7bB" 1 rfl rfl
  ⟨h.1, h.2.1, (h.2.2.2.2.2 "x").1⟩

/-- C4: on every chunk sequence the generator and the callback loop realise
the same splitting algorithm: the accumulated-text values yielded by
`answerStreamGenerator` equal the `onChunk` argument sequence of
`answerStream`, and the (first) metadata object yielded equals the
metadata returned by `answerStream`, or both are absent. -/
theorem generator_refines_callback (chunks : List String) :
    eventTexts (answerStreamGenRun chunks) = (answerStreamRun chunks).1 ∧
    eventMeta (answerStreamGenRun chunks) = (answerStreamRun chunks).2 :=
  ⟨answerStreamGenRun_texts chunks, answerStreamGenRun_meta chunks⟩

/-- C5: when the stream ends with a non-empty pending buffer that splits on
the blank line into more than one segment, the fallback's metadata is
exactly `JSON.parse` of the blank-line-joined remainder, the first segment
is emitted (appended to the accumulated text) when non-empty, and on parse
failure the accumulated text is extended with the blank line and the
literal remainder and emitted; in particular the single-chunk stream
`"Answer\n\nNot Json"` results in exactly `"Answer\n\nNot Json"` as the
total emitted answer text with a null metadata result. -/
theorem stream_end_fallback (st : SplitState) (l0 l1 : String) (rest : List String)
    (hb : st.buffer ≠ "")
    (hsp : jsSplit st.buffer "\n\n" = l0 :: l1 :: rest) :
    ((finishBuffer st).2.2 = jsonParse (String.intercalate "\n\n" (l1 :: rest))) ∧
    (l0 ≠ "" → st.accumulatedText ++ l0 ∈ (finishBuffer st).2.1) ∧
    ((jsonParse (String.intercalate "\n\n" (l1 :: rest)) = none ∧
        String.intercalate "\n\n" (l1 :: rest) ≠ "") →
      (finishBuffer st).1.accumulatedText =
        (if l0 = "" then st.accumulatedText else st.accumulatedText ++ l0) ++
          "\n\n" ++ String.intercalate "\n\n" (l1 :: rest) ∧
      (finishBuffer st).1.accumulatedText ∈ (finishBuffer st).2.1) ∧
    answerStreamRun ["Answer\n\nNot Json"] = (["Answer\n\nNot Json"], none) := by
  refine ⟨?_, ?_, ?_, rfl⟩
  · unfold finishBuffer
    by_cases hm : String.intercalate "\n\n" (l1 :: rest) = ""
    · rw [hm, jsonParse_empty]
      by_cases ht : l0 = "" <;> simp [hb, hsp, hm, ht]
    · cases hp : jsonParse (String.intercalate "\n\n" (l1 :: rest)) with
      | some j => by_cases ht : l0 = "" <;> simp [hb, hsp, hm, hp, ht]
      | none => by_cases ht : l0 = "" <;> simp [hb, hsp, hm, hp, ht]
  · intro ht
    unfold finishBuffer
    by_cases hm : String.intercalate "\n\n" (l1 :: rest) = ""
    · simp [hb, hsp, hm, ht]
    · cases hp : jsonParse (String.intercalate "\n\n" (l1 :: rest)) with
      | some j => simp [hb, hsp, hm, hp, ht]
      | none => simp [hb, hsp, hm, hp, ht]
  · rintro ⟨hp, hm⟩
    unfold finishBuffer
    by_cases ht : l0 = "" <;> simp [hb, hsp, hm, hp, ht]

/-- C5 witness: the fallback evaluated on the leftover buffer `"A\n\n{x"`
with accumulated text `"A"` (a state reachable after a failed metadata
parse). -/
theorem stream_end_fallback_witness :
    (finishBuffer ⟨"A\n\n\x7bx", "A"⟩).2.2 = none ∧
    ("A" : String) ++ "A" ∈ (finishBuffer ⟨"A\n\n\x7bx", "A"⟩).2.1 :=
  have h := stream_end_fallback ⟨"A\n\n\x7bx", "A"⟩ "A" "\x7bx" [] (by decide) rfl
  ⟨h.1.trans rfl, h.2.1 (by decide)⟩

/-- C6: a request whose message is empty or whitespace-only makes all three
request methods throw the validation error `"Message is required"` before
any network call: the pre-network phase of each method fails and the list
of issued fetches is empty (hence no stream is ever read). -/
theorem empty_message_validation (dm : ModelName) (req : AnswerRequest)
    (h : jsTrim req.message = "") :
    answerPrepare dm req = .error "Message is required" ∧
    answerStreamPrepare dm req = .error "Message is required" ∧
    answerStreamGeneratorPrepare dm req = .error "Message is required" ∧
    answerCalls dm req = [] ∧
    answerStreamCalls dm req = [] ∧
    answerStreamGeneratorCalls dm req = [] := by
  have hinv : messageInvalid req.message = true := by
    unfold messageInvalid
    simp [h]
  refine ⟨?_, ?_, ?_, ?_, ?_, ?_⟩ <;>
    simp [answerPrepare, answerStreamPrepare, answerStreamGeneratorPrepare,
      answerCalls, answerStreamCalls, answerStreamGeneratorCalls, hinv]

/-- C6 witness: the validation failure evaluated on the whitespace-only
message `"  "`. -/
theorem empty_message_validation_witness :
    answerPrepare ModelName.gpt4 ⟨"  ", none⟩ = .error "Message is required" ∧
    answerStreamCalls ModelName.gpt4 ⟨"  ", none⟩ = [] :=
  have h := empty_message_validation ModelName.gpt4 ⟨"  ", none⟩ rfl
  ⟨h.1, h.2.2.2.2.1⟩

/-- C7: the error classifier maps status 400 to the validation error, 401
to authentication, 500 to server and any other status to the generic
`ThredError` carrying that status; every classified error carries the
parsed error body when available; when the body could not be parsed as
JSON the message falls back to the response's status text; and in the
transport layer an `AbortError` is classified as a timeout while any other
failure is classified as a network error. -/
theorem error_classifier_spec (r : HttpResponse)
    (errName errMessage : String) (timeout : Nat) :
    (r.status = 400 →
      handleApiError r = validationError (apiErrorMessage r) (apiErrorData r)) ∧
    (r.status = 401 →
      handleApiError r = authenticationError (apiErrorMessage r) (apiErrorData r)) ∧
    (r.status = 500 →
      handleApiError r = serverError (apiErrorMessage r) (apiErrorData r)) ∧
    (r.status ≠ 400 → r.status ≠ 401 → r.status ≠ 500 →
      handleApiError r = thredError (apiErrorMessage r) r.status (apiErrorData r)) ∧
    (handleApiError r).response = apiErrorData r ∧
    (apiErrorData r = none → (handleApiError r).message = r.statusText) ∧
    (errName = "AbortError" →
      fetchFailureToError timeout errName errMessage =
        timeoutError ("Request timed out after " ++ toString timeout ++ "ms")) ∧
    (errName ≠ "AbortError" →
      fetchFailureToError timeout errName errMessage = networkError errMessage) := by
  have hmsg : (handleApiError r).message = apiErrorMessage r := by
    unfold handleApiError
    split <;> rfl
  have hresp : (handleApiError r).response = apiErrorData r := by
    unfold handleApiError
    split <;> rfl
  refine ⟨?_, ?_, ?_, ?_, hresp, ?_, ?_, ?_⟩
  · intro h; simp [handleApiError, h]
  · intro h; simp [handleApiError, h]
  · intro h; simp [handleApiError, h]
  · intro h4 h1 h5
    unfold handleApiError
    split
    · rename_i heq; exact absurd heq h4
    · rename_i heq; exact absurd heq h1
    · rename_i heq; exact absurd heq h5
    · rfl
  · intro h
    rw [hmsg]
    simp [apiErrorMessage, h, jsOrStr]
  · intro h; simp [fetchFailureToError, h]
  · intro h; simp [fetchFailureToError, h]

/-- C7 witness: the classifier evaluated on a concrete unclassified
response (418 with an unparseable body) and on concrete abort and
non-abort transport failures. -/
theorem error_classifier_spec_witness :
    handleApiError ⟨418, "teapot", true, none⟩ =
      thredError (apiErrorMessage ⟨418, "teapot", true, none⟩) 418 none ∧
    (handleApiError ⟨418, "teapot", true, none⟩).message = "teapot" ∧
    fetchFailureToError 5 "AbortError" "m" =
      timeoutError ("Request timed out after " ++ toString 5 ++ "ms") ∧
    fetchFailureToError 5 "TypeError" "failed to fetch" =
      networkError "failed to fetch" :=
  have h := error_classifier_spec ⟨418, "teapot", true, none⟩ "AbortError" "m" 5
  have h2 := error_classifier_spec ⟨418, "teapot", true, none⟩ "TypeError" "failed to fetch" 5
  ⟨h.2.2.2.1 (by decide) (by decide) (by decide),
   h.2.2.2.2.2.1 rfl,
   h.2.2.2.2.2.2.1 rfl,
   h2.2.2.2.2.2.2.2 (by decide)⟩

/-- C8: on every chunk sequence the accumulated text is monotone: the
values passed to `onChunk` by `answerStream`, and likewise the
accumulated-text values yielded by `answerStreamGenerator`, form a
pairwise prefix chain — each earlier value is a prefix of every later
one, so text is only appended, never truncated. -/
theorem accumulated_text_monotone (chunks : List String) :
    List.Pairwise strPre (answerStreamRun chunks).1 ∧
    List.Pairwise strPre (eventTexts (answerStreamGenRun chunks)) := by
  have hp := emitsOk_pairwise (answerStreamFull_emitsOk chunks)
  refine ⟨hp, ?_⟩
  rw [answerStreamGenRun_texts]
  exact hp

/-- C9: when the delimiter is found at the very start of the pending
buffer, the read emits no text event (the empty text segment is skipped)
in either delivery shape, but the metadata parse of the candidate starting
at the brace (the buffer minus its two leading newlines) still proceeds
and determines the read's outcome. -/
theorem delimiter_at_start_no_text_event (st : SplitState) (c : String)
    (h : jsIndexOf (st.buffer ++ c) streamDelim = some 0) :
    (processChunk st c).2.1 = [] ∧
    (processChunk st c).2.2 = jsonParse (jsSubstringFrom (st.buffer ++ c) 2) ∧
    eventTexts (processChunkGen st c).2.1 = [] ∧
    eventMetas (processChunkGen st c).2.1 =
      (jsonParse (jsSubstringFrom (st.buffer ++ c) 2)).toList := by
  have hgen := processChunkGen_eq st c
  have ht : jsSubstringTo (st.buffer ++ c) 0 = "" := rfl
  have h02 : (0 : Nat) + 2 = 2 := rfl
  have he : (processChunk st c).2.1 = [] := by
    unfold processChunk
    cases hp : jsonParse (jsSubstringFrom (st.buffer ++ c) 2) <;>
      simp [h, ht, h02, hp]
  have hm : (processChunk st c).2.2 = jsonParse (jsSubstringFrom (st.buffer ++ c) 2) := by
    unfold processChunk
    cases hp : jsonParse (jsSubstringFrom (st.buffer ++ c) 2) <;>
      simp [h, ht, h02, hp]
  refine ⟨he, hm, ?_, ?_⟩
  · rw [hgen, he, hm]
    cases jsonParse (jsSubstringFrom (st.buffer ++ c) 2) <;>
      simp [eventTexts_append, eventTexts_nil, eventTexts_meta_cons]
  · rw [hgen, he, hm]
    cases jsonParse (jsSubstringFrom (st.buffer ++ c) 2) <;>
      simp [eventMetas_append, eventMetas_nil, eventMetas_meta_cons]

/-- C9 witness: the behaviour evaluated on the read `"\n\n{}"` from the
initial state: no text event, and the parse of `"{}"` succeeds. -/
theorem delimiter_at_start_no_text_event_witness :
    (processChunk ⟨"", ""⟩ "\n\n\x7b\x7d").2.1 = [] ∧
    (processChunk ⟨"", ""⟩ "\n\n\x7b\x7d").2.2 =
      jsonParse (jsSubstringFrom ("" ++ "\n\n\x7b\x7d") 2) :=
  have h := delimiter_at_start_no_text_event ⟨"", ""⟩ "\n\n\x7b\x7d" rfl
  ⟨h.1, h.2.1⟩

/-- C10: a chunk that decodes to the empty string while the pending buffer
is empty still triggers a delivery: `onChunk` is invoked (and the
generator yields) with the unchanged accumulated text, so consumers can
observe consecutive duplicate accumulated-text events, as in the run
`["Hi", ""]` which delivers `"Hi"` twice. -/
theorem empty_chunk_duplicate_event (acc : String) :
    processChunk ⟨"", acc⟩ "" = (⟨"", acc⟩, [acc], none) ∧
    processChunkGen ⟨"", acc⟩ "" = (⟨"", acc⟩, [StreamEvent.text acc], false) ∧
    answerStreamRun ["Hi", ""] = (["Hi", "Hi"], none) := by
  have hidx : jsIndexOf "" streamDelim = none := rfl
  refine ⟨?_, ?_, rfl⟩
  · unfold processChunk
    simp [hidx]
  · unfold processChunkGen
    simp [hidx]

end ThredJs
